import Mathlib

/-!
# Verification of the congestion prediction & quiet-route scoring engine

A shallow embedding, in Lean 4, of the core of the `hush` repository:

* `training/preprocess.py` — cleaning, train/val/test split, per-station
  normalization statistics, node mapping, feature engineering;
* `src/gnn_inference.py` — the `GNNPredictor.predict` wrapper around the
  trained graph network;
* `congestion_scorer.py` — percentile congestion scores, fuzzy station-name
  resolution, and route quiet scores.

Python floats are modelled as exact rationals (`ℚ`); the transcendental
`sin`/`cos` feature maps are abstracted as parameters `sinF cosF : ℚ → ℚ`
(`sinF q` stands for `sin (2·π·q)`), since no verified property depends on
their numeric values.  Python `dict`s are modelled as association lists with
last-write-wins insertion, matching CPython semantics.
-/

namespace Hush

/-! ## Python dict primitives -/

/-- Insertion into a Python `dict`, modelled on an association list: if the
key is present its value is overwritten in place, otherwise the pair is
appended (CPython preserves insertion order of keys). -/
def pyDictInsert {α β : Type} [DecidableEq α] (d : List (α × β)) (k : α) (v : β) :
    List (α × β) :=
  if d.any (fun p => p.1 = k) then
    d.map (fun p => if p.1 = k then (k, v) else p)
  else
    d ++ [(k, v)]

/-- `dict(pairs)`: fold the pairs into an empty dict, later pairs winning. -/
def pyDictOfList {α β : Type} [DecidableEq α] (l : List (α × β)) : List (α × β) :=
  l.foldl (fun d p => pyDictInsert d p.1 p.2) []

/-- Dict lookup: first entry with the given key (dicts built by
`pyDictInsert` have distinct keys, so "first" is "the" entry). -/
def pyFind {α β : Type} [DecidableEq α] (d : List (α × β)) (k : α) : Option β :=
  (d.find? (fun p => decide (p.1 = k))).map (fun p => p.2)

/-! ## Python string primitives (over `List Char`) -/

/-- ASCII `str.lower` on a single character. -/
def pyLowerChar (c : Char) : Char :=
  if 'A' ≤ c ∧ c ≤ 'Z' then Char.ofNat (c.toNat + 32) else c

/-- `str.lower`. -/
def pyLower (s : List Char) : List Char := s.map pyLowerChar

/-- Whether `pat` is a prefix of `s` (helper for `pyReplace`/`pyContains`). -/
def isPrefixList (pat s : List Char) : Bool :=
  match pat, s with
  | [], _ => true
  | _ :: _, [] => false
  | p :: ps, c :: cs => p = c && isPrefixList ps cs

/-- Worker for `pyReplace`, structurally recursive on a fuel counter so that
it evaluates inside the kernel.  Each step consumes at least one character
and one unit of fuel, so with initial fuel `s.length` the fuel never runs
out before the string does. -/
def pyReplaceGo (old new : List Char) : ℕ → List Char → List Char
  | _, [] => []
  | 0, s => s
  | fuel + 1, c :: cs =>
    if isPrefixList old (c :: cs) then
      new ++ pyReplaceGo old new fuel (cs.drop (old.length - 1))
    else
      c :: pyReplaceGo old new fuel cs

/-- Python `str.replace(old, new)`: one left-to-right pass replacing
non-overlapping occurrences.  The source only ever calls it with the
non-empty patterns `"-"` and `"  "`; for an empty pattern this model returns
the string unchanged. -/
def pyReplace (s old new : List Char) : List Char :=
  match old with
  | [] => s
  | _ :: _ => pyReplaceGo old new s.length s

/-- Python `needle in haystack` (substring containment). -/
def pyContains (haystack needle : List Char) : Bool :=
  match haystack with
  | [] => needle.isEmpty
  | _ :: cs => isPrefixList needle haystack || pyContains cs needle

/-- Python whitespace test (the characters `str.split`/`str.strip` treat as
separators; the data only ever contains plain spaces). -/
def pyIsSpace (c : Char) : Bool := c = ' ' || c = '\t' || c = '\n' || c = '\r'

/-- Worker for `pySplit`: `acc` holds the reversed characters of the word
currently being read. -/
def pySplitGo (acc : List Char) : List Char → List (List Char)
  | [] => if acc.isEmpty then [] else [acc.reverse]
  | c :: cs =>
    if pyIsSpace c then
      if acc.isEmpty then pySplitGo [] cs else acc.reverse :: pySplitGo [] cs
    else
      pySplitGo (c :: acc) cs

/-- Python `str.split()` with no argument: split on runs of whitespace,
discarding empty fields. -/
def pySplit (s : List Char) : List (List Char) := pySplitGo [] s

/-- Python `str.strip()`: drop whitespace from both ends. -/
def pyStrip (s : List Char) : List Char :=
  ((s.dropWhile pyIsSpace).reverse.dropWhile pyIsSpace).reverse

/-! ## Congestion scorer (`congestion_scorer.py`)

The scorer's state is the predictions dict (modelled as its item list) and
the canonical station-name table `station_name_to_id` (item list of
name → complex id).  `all_tap_ins = list(predictions.values())` is
`preds.map Prod.snd`. -/

/-- `scipy.stats.percentileofscore(a, score)` with the default
`kind='rank'`: with `l = #{v ∈ a | v < score}` and `r = #{v ∈ a | v ≤ score}`,
the result is `(l + r + [l < r]) · 50 / len(a)` (the `+1` applies exactly
when `score` occurs in `a`; for such scores this equals the historical
"mean rank × 100 / n" definition). -/
def percentileofscore (a : List ℚ) (x : ℚ) : ℚ :=
  let l := a.countP (fun v => decide (v < x))
  let r := a.countP (fun v => decide (v ≤ x))
  let plus1 : ℕ := if l < r then 1 else 0
  ((l : ℚ) + (r : ℚ) + (plus1 : ℚ)) * 50 / (a.length : ℚ)

/-- `CongestionScorer.get_station_congestion_score`: percentile rank of the
station's predicted tap-ins among all predictions, divided by 100;
stations absent from the predictions dict default to `0.5`. -/
def get_station_congestion_score (preds : List (ℤ × ℚ)) (sid : ℤ) : ℚ :=
  match pyFind preds sid with
  | none => 1/2
  | some t => percentileofscore (preds.map Prod.snd) t / 100

/-- Normalization applied by `_find_station_id` before fuzzy matching:
`name.lower().replace('-', ' ').replace('  ', ' ')`.  Note the second
`replace` is a single non-overlapping pass, so three consecutive spaces
collapse to two, not one. -/
def normName (s : List Char) : List Char :=
  pyReplace (pyReplace (pyLower s) ['-'] [' ']) [' ', ' '] [' ']

/-- The token rule of `_find_station_id`: take the first two words of each
normalized name and compare the *first* words only
(`query_parts[0] == name_parts[0]`). -/
def firstTokenMatch (q cn : List Char) : Bool :=
  let qp := (pySplit q).take 2
  let np := (pySplit cn).take 2
  !qp.isEmpty && !np.isEmpty && decide (qp.head? = np.head?)

/-- The containment rule of `_find_station_id`:
`clean_query in clean_name or clean_name in clean_query`. -/
def normContainsMatch (q cn : List Char) : Bool :=
  pyContains cn q || pyContains q cn

/-- The fuzzy loop of `_find_station_id`: iterate over the name table in
order; for each entry try the containment rule, then the token rule; the
first entry where either fires wins. -/
def fuzzyLoop (table : List (List Char × ℤ)) (q : List Char) : Option ℤ :=
  match table with
  | [] => none
  | (nm, cid) :: rest =>
    let cn := normName nm
    if normContainsMatch q cn then some cid
    else if firstTokenMatch q cn then some cid
    else fuzzyLoop rest q

/-- `CongestionScorer._find_station_id`: `None` on an empty name, else an
exact dict lookup, else the fuzzy loop on the normalized query. -/
def find_station_id (table : List (List Char × ℤ)) (name : List Char) : Option ℤ :=
  if name = [] then none
  else
    match pyFind table name with
    | some cid => some cid
    | none => fuzzyLoop table (normName name)

/-- One leg of a route (`step` dict).  `departure`/`arrival` default to the
empty string, mirroring `step.get('departure', '')`. -/
structure Step where
  type : List Char
  departure : List Char := []
  arrival : List Char := []
deriving DecidableEq, Repr

/-- A route (`route` dict); `steps` defaults to `[]`,
mirroring `route.get('steps', [])`. -/
structure Route where
  steps : List Step := []
deriving DecidableEq, Repr

/-- `np.mean` over a list of rationals. -/
def listMean (l : List ℚ) : ℚ := l.sum / (l.length : ℚ)

/-- Python `int(q)`: truncation toward zero. -/
def ratTrunc (q : ℚ) : ℤ := if 0 ≤ q then q.floor else -((-q).floor)

/-- The congestion scores collected by `calculate_route_quiet_score`: for
each transit step, the resolved departure station's score then the resolved
arrival station's score; unresolved stations contribute nothing. -/
def routeStationScores (preds : List (ℤ × ℚ)) (table : List (List Char × ℤ))
    (route : Route) : List ℚ :=
  route.steps.foldl
    (fun acc step =>
      if step.type ≠ "transit".data then acc
      else
        let acc1 := match find_station_id table (pyStrip step.departure) with
          | some i => acc ++ [get_station_congestion_score preds i]
          | none => acc
        match find_station_id table (pyStrip step.arrival) with
        | some i => acc1 ++ [get_station_congestion_score preds i]
        | none => acc1)
    []

/-- `CongestionScorer.calculate_route_quiet_score`: 5 when no station
resolved, else `clamp₀¹⁰ (int ((1 - mean scores) · 10))`. -/
def calculate_route_quiet_score (preds : List (ℤ × ℚ))
    (table : List (List Char × ℤ)) (route : Route) : ℤ :=
  let scores := routeStationScores preds table route
  if scores = [] then 5
  else max 0 (min 10 (ratTrunc ((1 - listMean scores) * 10)))

/-! ## Preprocessing pipeline (`training/preprocess.py`) -/

/-- A timestamp, reduced to the fields the pipeline reads
(`dt.year`, `dt.hour`, `weekday`). -/
structure Ts where
  year : ℤ
  hour : ℕ
  dow : ℕ
deriving DecidableEq, Repr

/-- A cleaned ridership observation (row of the concatenated, cleaned
yearly data). -/
structure Obs where
  ts : Ts
  station : ℤ
  ridership : ℤ
deriving DecidableEq, Repr

/-- `year <= 2022` (the all-train years of `split_data`). -/
def isEarlyYear (r : Obs) : Bool := r.ts.year ≤ 2022

/-- `(year >= 2023) & (year <= 2024)` (the stratified years). -/
def isLateYear (r : Obs) : Bool := 2023 ≤ r.ts.year && r.ts.year ≤ 2024

/-- `df.sample(frac=1, random_state=42)`: a shuffle whose permutation of
positions is a fixed function of the length alone (the Mersenne-Twister
stream seeded with 42), never of the row values.  `σ n` is that list of
source positions; pandas guarantees it is a permutation of `[0, n)`, which
theorems assume explicitly via `IsShuffleSpec` where needed. -/
def sampleShuffle (σ : ℕ → List ℕ) {α : Type} (l : List α) : List α :=
  (σ l.length).filterMap (fun i => l.get? i)

/-- The property pandas guarantees of the seeded shuffle: `σ n` is a
permutation of the positions `0, …, n-1`. -/
def IsShuffleSpec (σ : ℕ → List ℕ) (n : ℕ) : Prop :=
  (σ n).length = n ∧ (σ n).Nodup ∧ ∀ k ∈ σ n, k < n

instance (σ : ℕ → List ℕ) (n : ℕ) : Decidable (IsShuffleSpec σ n) := by
  unfold IsShuffleSpec
  infer_instance

/-- `split_data`: years ≤ 2022 all train; years 2023–2024 shuffled with the
fixed seed and cut into `[0, n_train)`, `[n_train, n_train+n_val)`,
`[n_train+n_val, n)`; `n_train = int(n·0.375) = ⌊3n/8⌋` (0.375 is a dyadic
float, so the product is exact) and `n_val = int(n·0.025)`, modelled as
`⌊n/40⌋`.  Rows with year ≥ 2025 match neither mask. -/
def split_data (σ : ℕ → List ℕ) (df : List Obs) :
    List Obs × List Obs × List Obs :=
  let trainEarly := df.filter isEarlyYear
  let late := df.filter isLateYear
  let n := late.length
  let nTrain := 3 * n / 8
  let nVal := n / 40
  let shuffled := sampleShuffle σ late
  (trainEarly ++ shuffled.take nTrain,
   (shuffled.drop nTrain).take nVal,
   shuffled.drop (nTrain + nVal))

/-- The station ids of a dataframe, in row order. -/
def stationsOf (df : List Obs) : List ℤ := df.map (fun r => r.station)

/-- The ridership values of the group of rows for station `s`. -/
def groupRiderships (df : List Obs) (s : ℤ) : List ℚ :=
  (df.filter (fun r => r.station = s)).map (fun r => (r.ridership : ℚ))

/-- Group mean (`pandas` `mean`). -/
def sampleMean (l : List ℚ) : ℚ := l.sum / (l.length : ℚ)

/-- Unbiased sample variance (`pandas` `std` squared, `ddof=1`). -/
def sampleVar (l : List ℚ) : ℚ :=
  (l.map (fun x => (x - sampleMean l) ^ 2)).sum / ((l.length : ℚ) - 1)

/-- `compute_stats`: group the training rows by station (pandas sorts the
group keys ascending) and record mean and dispersion per group.  The third
component is the *square* of the source's `std` column: pandas' `std` is
`sqrt` of `sampleVar`, a singleton group gives `std = NaN` which
`fillna(1.0)` turns into `1 = sqrt 1`, so two stats tables are equal iff the
corresponding source tables are. -/
def compute_stats (train : List Obs) : List (ℤ × ℚ × ℚ) :=
  (((stationsOf train).dedup).insertionSort (· ≤ ·)).map
    (fun s =>
      let g := groupRiderships train s
      (s, sampleMean g, if g.length = 1 then 1 else sampleVar g))

/-- `build_node_mapping`: sort the distinct training station ids ascending
and enumerate them from 0. -/
def build_node_mapping (train : List Obs) : List (ℤ × ℕ) :=
  ((((stationsOf train).dedup).insertionSort (· ≤ ·)).enum).map
    (fun p => (p.2, p.1))

/-- An output row of `add_features` (the columns the function creates or
uses downstream).  There is no day-of-week column: `add_features` computes
`sin_hour`/`cos_hour` only. -/
structure FeatRow where
  ts : Ts
  station : ℤ
  ridership : ℤ
  mean : ℚ
  std : ℚ
  ridership_norm : ℚ
  hour : ℕ
  sin_hour : ℚ
  cos_hour : ℚ
  node_id : ℕ
deriving DecidableEq, Repr

/-- `add_features`: left-join the stats (absent stations get mean 0, std 1),
z-score the ridership with an `1e-6` guard, add `sin`/`cos` of the hour
(period 24; `sinF q` stands for `sin (2πq)`), then drop rows whose station
is outside the node mapping and attach `node_id`. -/
def add_features (sinF cosF : ℚ → ℚ) (stats : List (ℤ × ℚ × ℚ))
    (mapping : List (ℤ × ℕ)) (df : List Obs) : List FeatRow :=
  df.filterMap (fun r =>
    match pyFind mapping r.station with
    | none => none
    | some nid =>
      let ms := match pyFind stats r.station with
        | some ms => ms
        | none => (0, 1)
      some { ts := r.ts, station := r.station, ridership := r.ridership,
             mean := ms.1, std := ms.2,
             ridership_norm := ((r.ridership : ℚ) - ms.1) / (ms.2 + 1/1000000),
             hour := r.ts.hour,
             sin_hour := sinF ((r.ts.hour : ℚ) / 24),
             cos_hour := cosF ((r.ts.hour : ℚ) / 24),
             node_id := nid })

/-! ## Offline cleaning (`clean`) and serving-time snapshot cleaning
(`gnn_loader.get_tap_in_predictions`, lines 48–53) -/

/-- Strict integer parse, as `astype(int)` applies to a string column:
optional sign followed by at least one digit (surrounding whitespace
stripped); anything else raises `ValueError`. -/
def parsePyInt (s : List Char) : Option ℤ :=
  let t := pyStrip s
  let core : Option (List Char × Bool) :=
    match t with
    | '-' :: rest => some (rest, true)
    | '+' :: rest => some (rest, false)
    | _ => some (t, false)
  match core with
  | some (digits, neg) =>
    if digits ≠ [] ∧ digits.all (fun c => c.isDigit) then
      let v : ℕ := digits.foldl (fun acc c => 10 * acc + (c.toNat - '0'.toNat)) 0
      some (if neg then -(v : ℤ) else (v : ℤ))
    else none
  | none => none

/-- Strip thousands separators: `str.replace(',', '')`. -/
def stripCommas (s : List Char) : List Char := pyReplace s [','] []

/-- A raw ridership row as read with `dtype=str`: the timestamp, the station
id, and the textual ridership value. -/
structure RawObs where
  ts : Ts
  station : ℤ
  ridership : List Char
deriving DecidableEq, Repr

/-- The ridership coercion of the offline `clean` step:
`df["ridership"].str.replace(",", "").astype(int)` — commas stripped, then a
*strict* integer conversion that raises on any non-numeric value.  `clean`
therefore hard-fails (returns `none`) as soon as one value is unparsable. -/
def cleanRidershipColumn : List RawObs → Option (List Obs)
  | [] => some []
  | r :: rest =>
    match parsePyInt (stripCommas r.ridership), cleanRidershipColumn rest with
    | some v, some out =>
      some ({ ts := r.ts, station := r.station, ridership := v } :: out)
    | _, _ => none

/-- Decimal parse as `pd.to_numeric` accepts for the snapshot path
(integer or `digits.digits` decimal, optional sign), returned as an exact
rational; `none` models coercion to NaN. -/
def parsePyNumeric (s : List Char) : Option ℚ :=
  let t := pyStrip s
  let signed : List Char × Bool :=
    match t with
    | '-' :: rest => (rest, true)
    | '+' :: rest => (rest, false)
    | _ => (t, false)
  let body := signed.1
  let intPart := body.takeWhile (fun c => c.isDigit)
  let rest := body.dropWhile (fun c => c.isDigit)
  let frac : Option (List Char) :=
    match rest with
    | [] => some []
    | '.' :: fs => if fs.all (fun c => c.isDigit) then some fs else none
    | _ => none
  match frac with
  | none => none
  | some fs =>
    if intPart = [] ∧ fs = [] then none
    else
      let iv : ℕ := intPart.foldl (fun acc c => 10 * acc + (c.toNat - '0'.toNat)) 0
      let fv : ℕ := fs.foldl (fun acc c => 10 * acc + (c.toNat - '0'.toNat)) 0
      let mag : ℚ := (iv : ℚ) + (fv : ℚ) / ((10 : ℚ) ^ fs.length)
      some (if signed.2 then -mag else mag)

/-- The serving-time snapshot coercion (`gnn_loader.py` lines 50–53):
`pd.to_numeric(x.astype(str).str.replace(',', ''), errors='coerce').fillna(0)`
— commas stripped, unparsable values coerced to NaN and then filled with 0.
Total: it never raises. -/
def snapshotCleanValue (s : List Char) : ℚ :=
  match parsePyNumeric (stripCommas s) with
  | some v => v
  | none => 0

/-! ## GNN predictor (`src/gnn_inference.py`, `GNNPredictor`)

`__init__` loads `ComplexNodes.csv` and builds the two dicts
`ComplexNodes_dict = dict(zip(complex_id, node_id))` and
`node_to_cmplx = dict(zip(node_id, complex_id))`, plus
`stats_dict = dict(zip(station_complex_id, (mean, std)))`, and sets
`num_nodes = len(ComplexNodes_dict)`.  The trained network (embedding +
dual-stack SAGE layers + linear head) together with the loaded edge tensors
is abstracted as an arbitrary function `modelOut` from the node-feature
matrix to per-node raw outputs: no verified claim depends on its values. -/

/-- The loaded state of `GNNPredictor`. -/
structure GNNState where
  rows : List (ℤ × ℕ)
  statsRows : List (ℤ × ℚ × ℚ)
  modelOut : (ℕ → ℕ → ℚ) → ℕ → ℚ

/-- `self.ComplexNodes_dict`. -/
def cmplxToNode (S : GNNState) : List (ℤ × ℕ) := pyDictOfList S.rows

/-- `self.node_to_cmplx`. -/
def nodeToCmplx (S : GNNState) : List (ℕ × ℤ) :=
  pyDictOfList (S.rows.map (fun p => (p.2, p.1)))

/-- `self.stats_dict`. -/
def gnnStatsDict (S : GNNState) : List (ℤ × ℚ × ℚ) := pyDictOfList S.statsRows

/-- `self.num_nodes = len(self.ComplexNodes_dict)`. -/
def numNodes (S : GNNState) : ℕ := (cmplxToNode S).length

/-- The feature matrix built at the top of `predict`:
`X = torch.zeros(num_nodes, 5)`, then for each snapshot row whose station is
in the node mapping, set column 0 to the z-scored ridership (0 if the
station has no stats) and columns 1–4 to sin/cos hour and sin/cos
day-of-week.  Rows absent from the snapshot keep the all-zero feature
vector — including the time columns.  (`sinF q` stands for `sin (2πq)`.) -/
def buildX (S : GNNState) (sinF cosF : ℚ → ℚ) (snapshot : List (ℤ × ℚ))
    (hour dow : ℕ) : ℕ → ℕ → ℚ :=
  let sh := sinF ((hour : ℚ) / 24)
  let ch := cosF ((hour : ℚ) / 24)
  let sd := sinF ((dow : ℚ) / 7)
  let cd := cosF ((dow : ℚ) / 7)
  snapshot.foldl
    (fun X p =>
      match pyFind (cmplxToNode S) p.1 with
      | none => X
      | some nid =>
        let rn : ℚ :=
          match pyFind (gnnStatsDict S) p.1 with
          | some ms => (p.2 - ms.1) / (ms.2 + 1/1000000)
          | none => 0
        fun n f =>
          if n = nid then
            if f = 0 then rn
            else if f = 1 then sh
            else if f = 2 then ch
            else if f = 3 then sd
            else if f = 4 then cd
            else X n f
          else X n f)
    (fun _ _ => 0)

/-- `GNNPredictor.predict`: build the feature matrix, run the model, then
for each `node_id in range(num_nodes)` present in `node_to_cmplx`,
denormalize (`pred · std + mean` when stats exist, raw otherwise) and store
`max(0, ·)` under the complex id. -/
def predict (S : GNNState) (sinF cosF : ℚ → ℚ) (snapshot : List (ℤ × ℚ))
    (hour dow : ℕ) : List (ℤ × ℚ) :=
  let y := S.modelOut (buildX S sinF cosF snapshot hour dow)
  (List.range (numNodes S)).foldl
    (fun d nid =>
      match pyFind (nodeToCmplx S) nid with
      | none => d
      | some c =>
        let pt : ℚ :=
          match pyFind (gnnStatsDict S) c with
          | some ms => y nid * ms.2 + ms.1
          | none => y nid
        pyDictInsert d c (max 0 pt))
    []

/-- Well-formedness of the loaded node-mapping artifact, as
`build_node_mapping` produces and the spec's data model stipulates: distinct
complex ids, and the node ids are exactly a permutation of `[0, len)` (here:
distinct and in range, which forces surjectivity). -/
def WFMapping (rows : List (ℤ × ℕ)) : Prop :=
  (rows.map Prod.fst).Nodup ∧ (rows.map Prod.snd).Nodup ∧
    ∀ n ∈ rows.map Prod.snd, n < rows.length

instance (rows : List (ℤ × ℕ)) : Decidable (WFMapping rows) := by
  unfold WFMapping
  infer_instance

/-! ## Shared lemmas -/

theorem mem_of_pyFind_eq_some {α β : Type} [DecidableEq α] {d : List (α × β)}
    {k : α} {v : β} (h : pyFind d k = some v) : (k, v) ∈ d := by
  unfold pyFind at h
  rcases Option.map_eq_some'.mp h with ⟨p, hp, hv⟩
  have hmem := List.mem_of_find?_eq_some hp
  have hkey : p.1 = k := by
    have := List.find?_some hp
    simpa using this
  have : p = (k, v) := by
    cases p
    simp_all
  subst this
  exact hmem

theorem snd_mem_of_pyFind_eq_some {α β : Type} [DecidableEq α] {d : List (α × β)}
    {k : α} {v : β} (h : pyFind d k = some v) : v ∈ d.map Prod.snd := by
  exact List.mem_map.mpr ⟨(k, v), mem_of_pyFind_eq_some h, rfl⟩

theorem pyFind_eq_some_of_mem_nodup {α β : Type} [DecidableEq α]
    {d : List (α × β)} {k : α} {v : β}
    (hnd : (d.map Prod.fst).Nodup) (hmem : (k, v) ∈ d) :
    pyFind d k = some v := by
  induction d with
  | nil => simp at hmem
  | cons p rest ih =>
    rcases List.mem_cons.mp hmem with heq | htail
    · subst heq
      simp [pyFind, List.find?]
    · have hk : p.1 ≠ k := by
        intro hcontra
        have : k ∈ rest.map Prod.fst :=
          List.mem_map.mpr ⟨(k, v), htail, rfl⟩
        simp only [List.map_cons, List.nodup_cons] at hnd
        exact hnd.1 (hcontra ▸ this)
      have hnd' : (rest.map Prod.fst).Nodup := by
        simp only [List.map_cons, List.nodup_cons] at hnd
        exact hnd.2
      simp only [pyFind, List.find?]
      rw [show (decide (p.1 = k)) = false by simp [hk]]
      exact ih hnd' htail

theorem countP_le_add_of_imp {α : Type} (l : List α) (p q : α → Bool)
    (h : ∀ a, p a = true → q a = true) : l.countP p ≤ l.countP q := by
  exact List.countP_mono_left (fun a _ hp => h a hp)

/-- `#{v ≤ x} = #{v < x} + #{v = x}` over a list of rationals. -/
theorem countP_le_split (l : List ℚ) (x : ℚ) :
    l.countP (fun v => decide (v ≤ x)) =
      l.countP (fun v => decide (v < x)) + l.countP (fun v => decide (v = x)) := by
  induction l with
  | nil => simp
  | cons a rest ih =>
    by_cases hlt : a < x
    · have hle : a ≤ x := le_of_lt hlt
      have hne : ¬ (a = x) := ne_of_lt hlt
      simp [List.countP_cons, hlt, hle, hne, ih]
      omega
    · by_cases heq : a = x
      · have hle : a ≤ x := le_of_eq heq
        simp [List.countP_cons, hlt, hle, heq, ih]
        omega
      · have hle : ¬ (a ≤ x) := by
          intro hcontra
          rcases lt_or_eq_of_le hcontra with h | h
          · exact hlt h
          · exact heq h
        simp [List.countP_cons, hlt, hle, heq, ih]

/-- Helper for C4: the rank percentile of a value present in the list is
`(l + r + 1) · 50 / n` with `l < r`, and lies in `(0, 1]` after the `/100`. -/
theorem congestion_score_bounds (preds : List (ℤ × ℚ)) (sid : ℤ) :
    0 ≤ get_station_congestion_score preds sid ∧
      get_station_congestion_score preds sid ≤ 1 := by
  unfold get_station_congestion_score
  cases h : pyFind preds sid with
  | none => norm_num
  | some t =>
    have htv : t ∈ preds.map Prod.snd := snd_mem_of_pyFind_eq_some h
    set vals := preds.map Prod.snd with hvals
    have hn : 0 < vals.length := List.length_pos.mpr (List.ne_nil_of_mem htv)
    set l := vals.countP (fun v => decide (v < t)) with hl
    set r := vals.countP (fun v => decide (v ≤ t)) with hr
    have hsplit : r = l + vals.countP (fun v => decide (v = t)) := countP_le_split vals t
    have hcpos : 0 < vals.countP (fun v => decide (v = t)) :=
      List.countP_pos_iff.mpr ⟨t, htv, by simp⟩
    have hlr : l < r := by omega
    have hrn : r ≤ vals.length := List.countP_le_length _
    have hsum : l + r + 1 ≤ 2 * vals.length := by omega
    unfold percentileofscore
    simp only [← hl, ← hr, if_pos hlr]
    constructor
    · positivity
    · rw [div_div, div_le_one (by positivity)]
      push_cast
      have h50 : ((l + r + 1 : ℕ) : ℚ) * 50 ≤ ((2 * vals.length : ℕ) : ℚ) * 50 := by
        have := (Nat.cast_le (α := ℚ)).mpr hsum
        nlinarith
      push_cast at h50
      nlinarith

/-- C4 (amended): for a non-empty prediction map, every station's congestion
score lies in `[0, 1]`; stations absent from the map get exactly `1/2`; and
the station holding the unique maximum predicted tap-ins gets percentile
exactly `1` (scipy's `kind='rank'` adds 1 to `l + r` for a score present in
the data, so the unique maximum reaches `2n·50/n = 100`), for every map size
including `N = 1`. -/
theorem C4_per_station_scores (preds : List (ℤ × ℚ)) (sid sid' : ℤ) (t : ℚ)
    (hne : preds ≠ [])
    (hmax : pyFind preds sid = some t)
    (hle : ∀ v ∈ preds.map Prod.snd, v ≤ t)
    (huniq : (preds.map Prod.snd).countP (fun v => decide (v = t)) = 1)
    (habsent : pyFind preds sid' = none) :
    get_station_congestion_score preds sid = 1 ∧
    (∀ s, 0 ≤ get_station_congestion_score preds s ∧
          get_station_congestion_score preds s ≤ 1) ∧
    get_station_congestion_score preds sid' = 1/2 := by
  refine ⟨?_, fun s => congestion_score_bounds preds s, ?_⟩
  · have htv : t ∈ preds.map Prod.snd := snd_mem_of_pyFind_eq_some hmax
    set vals := preds.map Prod.snd with hvals
    have hn : 0 < vals.length := List.length_pos.mpr (List.ne_nil_of_mem htv)
    set l := vals.countP (fun v => decide (v < t)) with hl
    set r := vals.countP (fun v => decide (v ≤ t)) with hr
    have hrall : r = vals.length := by
      rw [hr]
      exact List.countP_eq_length.mpr (fun v hv => by simpa using hle v hv)
    have hsplit : r = l + vals.countP (fun v => decide (v = t)) := countP_le_split vals t
    have hlval : l + 1 = vals.length := by omega
    have hlr : l < r := by omega
    unfold get_station_congestion_score
    rw [hmax]
    unfold percentileofscore
    simp only [← hvals, ← hl, ← hr, if_pos hlr]
    have hnq : (vals.length : ℚ) ≠ 0 := by positivity
    have hcast : (l : ℚ) + 1 = (vals.length : ℚ) := by
      exact_mod_cast hlval
    rw [hrall]
    field_simp
    linarith
  · unfold get_station_congestion_score
    rw [habsent]

/-- C4 counterexample: with predictions `{1 ↦ 10, 2 ↦ 20}` (`N = 2`), the
station with the unique maximum gets congestion score exactly `1.0`, not
`(N-1)/N = 1/2` as the claim states. -/
theorem C4_counterexample :
    get_station_congestion_score [(1, 10), (2, 20)] 2 = 1 ∧
      ((1 : ℚ) ≠ (2 - 1) / 2) := by
  constructor
  · simp [get_station_congestion_score, pyFind, List.find?, percentileofscore,
      List.countP_cons, List.countP_nil]
    norm_num
  · norm_num

/-- C4 witness: the amended theorem applied to the same concrete map. -/
theorem C4_witness :
    get_station_congestion_score [(1, 10), (2, 20)] 2 = 1 ∧
    (∀ s, 0 ≤ get_station_congestion_score [(1, 10), (2, 20)] s ∧
          get_station_congestion_score [(1, 10), (2, 20)] s ≤ 1) ∧
    get_station_congestion_score [(1, 10), (2, 20)] 5 = 1/2 :=
  C4_per_station_scores [(1, 10), (2, 20)] 2 5 20 (by decide) (by decide)
    (by decide) (by decide) (by decide)

/-- Helper for C5: the fuzzy loop is a first-match scan of the table with
the per-entry disjunction "containment or first-token". -/
theorem fuzzyLoop_eq_find (table : List (List Char × ℤ)) (q : List Char) :
    fuzzyLoop table q =
      (table.find? (fun p =>
        normContainsMatch q (normName p.1) ||
          firstTokenMatch q (normName p.1))).map Prod.snd := by
  induction table with
  | nil => rfl
  | cons p rest ih =>
    cases p with
    | mk nm cid =>
      by_cases h1 : normContainsMatch q (normName nm) = true
      · rw [List.find?_cons_of_pos _ (by simp [h1])]
        simp [fuzzyLoop, h1]
      · by_cases h2 : firstTokenMatch q (normName nm) = true
        · rw [List.find?_cons_of_pos _ (by simp [h2])]
          simp [fuzzyLoop, h1, h2]
        · rw [List.find?_cons_of_neg _ (by simp [h1, h2])]
          simp only [fuzzyLoop, if_neg h1, if_neg h2]
          exact ih

/-- C5 (amended): station-name resolution first tries an exact lookup over
the whole table; if that fails it scans the table entries *in order*, trying
for each entry the normalized-containment rule and then the
first-word rule (only `parts[0]` is compared, despite the `[:2]` slice), and
returns the first entry where either rule fires; `none` when no rule fires
anywhere.  "bowling green" resolves to "Bowling Green" via normalized
containment; "Grand Central-42 St" resolves to "Grand Central - 42 St" via
the first-word rule (normalized containment fails for that pair because the
single-pass `replace('  ', ' ')` leaves a double space in the canonical
name). -/
theorem C5_station_name_resolution :
    (∀ table name, find_station_id table name =
      if name = [] then none
      else
        match pyFind table name with
        | some cid => some cid
        | none =>
          (table.find? (fun p =>
            normContainsMatch (normName name) (normName p.1) ||
              firstTokenMatch (normName name) (normName p.1))).map Prod.snd) ∧
    find_station_id [("Bowling Green".data, 414)] "bowling green".data = some 414 ∧
    normContainsMatch (normName "bowling green".data)
      (normName "Bowling Green".data) = true ∧
    find_station_id [("Grand Central - 42 St".data, 610)]
      "Grand Central-42 St".data = some 610 ∧
    firstTokenMatch (normName "Grand Central-42 St".data)
      (normName "Grand Central - 42 St".data) = true ∧
    find_station_id [] "Anywhere".data = none := by
  refine ⟨?_, by decide, by decide, by decide, by decide, by decide⟩
  intro table name
  unfold find_station_id
  by_cases h : name = []
  · simp [h]
  · simp only [if_neg h]
    cases hf : pyFind table name with
    | some cid => rfl
    | none => exact fuzzyLoop_eq_find table (normName name)

/-- C5 counterexample: the claim's priority order and its "Grand Central"
mechanism are both false on the code.  (1) Normalized containment *fails*
for query "Grand Central-42 St" against canonical "Grand Central - 42 St"
(the claim says the pair resolves via containment); the pair actually
resolves via the first-word rule.  (2) The rules are tried per entry, not
rule-by-rule over the whole table: an earlier entry matching only the
first-word rule ("Grand Army Plaza") beats a later entry matching the
containment rule ("Grand Central"), so the resolver returns id 1 where the
claim's global rule order would return id 2. -/
theorem C5_counterexample :
    normContainsMatch (normName "Grand Central-42 St".data)
      (normName "Grand Central - 42 St".data) = false ∧
    find_station_id [("Grand Central - 42 St".data, 610)]
      "Grand Central-42 St".data = some 610 ∧
    firstTokenMatch (normName "Grand Central-42 St".data)
      (normName "Grand Central - 42 St".data) = true ∧
    find_station_id [("Grand Army Plaza".data, 1), ("Grand Central".data, 2)]
      "Grand Central-42 St".data = some 1 ∧
    normContainsMatch (normName "Grand Central-42 St".data)
      (normName "Grand Army Plaza".data) = false ∧
    normContainsMatch (normName "Grand Central-42 St".data)
      (normName "Grand Central".data) = true := by
  refine ⟨by decide, by decide, by decide, by decide, by decide, by decide⟩

/-- C3 (confirmed): every route's quiet score is an integer in `[0, 10]`; it
is exactly 5 when no departure/arrival station of any transit leg resolves,
and otherwise it is the truncated, clamped inversion
`clamp₀¹⁰ (int ((1 - mean scores) · 10))` of the average congestion score of
the resolved stations. -/
theorem C3_route_quiet_score (preds : List (ℤ × ℚ))
    (table : List (List Char × ℤ)) (route : Route) :
    0 ≤ calculate_route_quiet_score preds table route ∧
    calculate_route_quiet_score preds table route ≤ 10 ∧
    calculate_route_quiet_score preds table route =
      (if routeStationScores preds table route = [] then 5
       else max 0 (min 10
         (ratTrunc ((1 - listMean (routeStationScores preds table route)) * 10)))) := by
  refine ⟨?_, ?_, rfl⟩ <;>
    by_cases hsc : routeStationScores preds table route = []
  · simp only [calculate_route_quiet_score, if_pos hsc]; norm_num
  · simp only [calculate_route_quiet_score, if_neg hsc]
    exact le_max_left 0 _
  · simp only [calculate_route_quiet_score, if_pos hsc]; norm_num
  · simp only [calculate_route_quiet_score, if_neg hsc]
    exact max_le (by norm_num) (min_le_left _ _)

/-- C9 (amended): the *serving-time* snapshot cleaning is total — commas are
stripped and any unparsable value is coerced to 0 (never an error) — but the
*offline* `clean` step is strict: after comma-stripping it converts with
`astype(int)`, which hard-fails exactly when some ridership value does not
parse as an integer.  Neither path clamps negative values. -/
theorem C9_ridership_cleaning :
    (∀ rows : List RawObs,
      (cleanRidershipColumn rows).isNone =
        rows.any (fun r => (parsePyInt (stripCommas r.ridership)).isNone)) ∧
    (∀ s, snapshotCleanValue s = (parsePyNumeric (stripCommas s)).getD 0) ∧
    snapshotCleanValue "1,234".data = 1234 ∧
    snapshotCleanValue "abc".data = 0 ∧
    snapshotCleanValue "-7".data = -7 ∧
    cleanRidershipColumn
      [{ ts := ⟨2024, 12, 3⟩, station := 1, ridership := "1,234".data }] =
      some [{ ts := ⟨2024, 12, 3⟩, station := 1, ridership := 1234 }] := by
  refine ⟨?_, ?_, ?_, by decide, ?_, by decide⟩
  · intro rows
    induction rows with
    | nil => rfl
    | cons r rest ih =>
      cases h : parsePyInt (stripCommas r.ridership) with
      | none => simp [cleanRidershipColumn, h]
      | some v =>
        have hstep : (cleanRidershipColumn (r :: rest)).isNone =
            (cleanRidershipColumn rest).isNone := by
          cases hrest : cleanRidershipColumn rest <;>
            simp [cleanRidershipColumn, h, hrest]
        rw [hstep, ih, List.any_cons, h]
        simp
  · intro s
    unfold snapshotCleanValue
    cases h : parsePyNumeric (stripCommas s) <;> simp [h]
  · have h : snapshotCleanValue "1,234".data =
        ((1234 : ℕ) : ℚ) + ((0 : ℕ) : ℚ) / (10 : ℚ) ^ (0 : ℕ) := rfl
    rw [h]; norm_num
  · have h : snapshotCleanValue "-7".data =
        -(((7 : ℕ) : ℚ) + ((0 : ℕ) : ℚ) / (10 : ℚ) ^ (0 : ℕ)) := rfl
    rw [h]; norm_num

/-- C9 counterexample: a single non-numeric ridership value makes the
offline `clean` step raise (`none`), so cleaning is *not* free of hard
failures as the claim states; only the serving-time path coerces it to 0. -/
theorem C9_counterexample :
    cleanRidershipColumn
      [{ ts := ⟨2024, 12, 3⟩, station := 1, ridership := "abc".data }] = none ∧
    snapshotCleanValue "abc".data = 0 := by
  exact ⟨by decide, by decide⟩

/-- C6 (confirmed): `build_node_mapping` enumerates the distinct training
complex ids in ascending order from 0, so the resulting association list is
a bijection from the training-partition complex ids onto `[0, num_nodes)`:
its node ids are exactly `range len`, its complex ids are distinct, sorted
ascending, and are exactly the stations occurring in the training data.
Determinism across runs is immediate: the builder is a pure function of the
training data (unlike `split_data` it takes no randomness source). -/
theorem C6_node_mapping_bijection (train : List Obs) :
    ((build_node_mapping train).map Prod.snd =
      List.range (build_node_mapping train).length) ∧
    ((build_node_mapping train).map Prod.fst).Nodup ∧
    ((build_node_mapping train).map Prod.fst).Sorted (· ≤ ·) ∧
    (∀ s : ℤ, s ∈ (build_node_mapping train).map Prod.fst ↔
      s ∈ stationsOf train) := by
  have hperm : List.Perm (((stationsOf train).dedup).insertionSort (· ≤ ·))
      ((stationsOf train).dedup) := List.perm_insertionSort _ _
  have hfst : (build_node_mapping train).map Prod.fst =
      ((stationsOf train).dedup).insertionSort (· ≤ ·) := by
    unfold build_node_mapping
    rw [List.map_map]
    exact List.enum_map_snd _
  refine ⟨?_, ?_, ?_, ?_⟩
  · unfold build_node_mapping
    rw [List.map_map, List.length_map, List.enum_length]
    rw [show (Prod.snd ∘ fun p : ℕ × ℤ => (p.2, p.1)) = Prod.fst from rfl]
    exact List.enum_map_fst _
  · rw [hfst]
    exact hperm.nodup_iff.mpr ((stationsOf train).nodup_dedup)
  · rw [hfst]
    exact List.sorted_insertionSort _ _
  · intro s
    rw [hfst, hperm.mem_iff, List.mem_dedup]

/-- Helper: indexing `range l.length` back into `l` reproduces `l`. -/
theorem filterMap_get_range {α : Type} (l : List α) :
    (List.range l.length).filterMap (fun i => l.get? i) = l := by
  induction l with
  | nil => rfl
  | cons a rest ih =>
    rw [List.length_cons, List.range_succ_eq_map, List.filterMap_cons]
    simp only [List.get?_cons_zero, List.filterMap_map]
    have : (fun i => (a :: rest).get? (Nat.succ i)) = (fun i => rest.get? i) := by
      funext i
      rfl
    rw [show ((fun i => (a :: rest).get? i) ∘ Nat.succ) = (fun i => rest.get? i)
        from rfl]
    rw [ih]

/-- Helper: a seeded full shuffle is a permutation of its input. -/
theorem sampleShuffle_perm {α : Type} (σ : ℕ → List ℕ) (l : List α)
    (hσ : IsShuffleSpec σ l.length) : List.Perm (sampleShuffle σ l) l := by
  obtain ⟨hlen, hnd, hlt⟩ := hσ
  have hsub : σ l.length ⊆ List.range l.length := fun k hk =>
    List.mem_range.mpr (hlt k hk)
  have hperm : List.Perm (σ l.length) (List.range l.length) :=
    (List.subperm_of_subset hnd hsub).perm_of_length_le
      (by rw [hlen, List.length_range])
  unfold sampleShuffle
  exact (hperm.filterMap _).trans (by rw [filterMap_get_range])

/-- Helper: three consecutive slices reassemble the list. -/
theorem take_drop_three {α : Type} (l : List α) (a b : ℕ) :
    l.take a ++ ((l.drop a).take b ++ l.drop (a + b)) = l := by
  rw [← List.drop_drop, List.take_append_drop, List.take_append_drop]

/-- Helper: filtering a list by two mutually exclusive predicates and
concatenating is a permutation of filtering by their disjunction. -/
theorem filter_disjoint_union_perm {α : Type} (p q : α → Bool) (l : List α)
    (hdisj : ∀ x, ¬(p x = true ∧ q x = true)) :
    List.Perm (l.filter p ++ l.filter q) (l.filter (fun x => p x || q x)) := by
  induction l with
  | nil => simp
  | cons a rest ih =>
    rw [List.filter_cons, List.filter_cons, List.filter_cons]
    by_cases hp : p a = true
    · have hq : ¬ (q a = true) := fun hqa => hdisj a ⟨hp, hqa⟩
      rw [if_pos hp, if_neg hq, if_pos (by simp [hp])]
      simp only [List.cons_append]
      exact ih.cons a
    · by_cases hq : q a = true
      · rw [if_neg hp, if_pos hq, if_pos (by simp [hq])]
        exact List.perm_middle.trans (ih.cons a)
      · rw [if_neg hp, if_neg hq, if_neg (by simp [hp, hq])]
        exact ih

/-- C10 (confirmed): `split_data` is not a total partition.  Every row with
year ≤ 2022 lands in the train output; the concatenation of the three
outputs is a permutation of exactly the rows with year ≤ 2024 (so each such
row lands in exactly one output, with multiplicity); and every row with
year ≥ 2025 appears in none of the three outputs. -/
theorem C10_split_drops_future_rows (σ : ℕ → List ℕ) (df : List Obs)
    (hσ : IsShuffleSpec σ (df.filter isLateYear).length) :
    (∀ r ∈ df, isEarlyYear r = true → r ∈ (split_data σ df).1) ∧
    List.Perm
      ((split_data σ df).1 ++ ((split_data σ df).2.1 ++ (split_data σ df).2.2))
      (df.filter (fun r => decide (r.ts.year ≤ 2024))) ∧
    (∀ r ∈ df, 2025 ≤ r.ts.year →
      r ∉ (split_data σ df).1 ∧ r ∉ (split_data σ df).2.1 ∧
        r ∉ (split_data σ df).2.2) := by
  have hshuffle : List.Perm (sampleShuffle σ (df.filter isLateYear))
      (df.filter isLateYear) := sampleShuffle_perm σ _ hσ
  have hunion : List.Perm
      ((split_data σ df).1 ++ ((split_data σ df).2.1 ++ (split_data σ df).2.2))
      (df.filter (fun r => decide (r.ts.year ≤ 2024))) := by
    simp only [split_data]
    rw [List.append_assoc, take_drop_three]
    refine List.Perm.trans (List.Perm.append_left _ hshuffle) ?_
    refine List.Perm.trans
      (filter_disjoint_union_perm isEarlyYear isLateYear df ?_) ?_
    · intro x hx
      unfold isEarlyYear isLateYear at hx
      obtain ⟨h1, h2⟩ := hx
      simp only [decide_eq_true_eq, Bool.and_eq_true] at h1 h2
      omega
    · rw [List.filter_congr (fun r _ => ?_)]
      unfold isEarlyYear isLateYear
      by_cases h22 : r.ts.year ≤ 2022
      · have h24 : r.ts.year ≤ 2024 := by omega
        simp [h22, h24]
      · by_cases h24 : r.ts.year ≤ 2024
        · have h23 : 2023 ≤ r.ts.year := by omega
          simp [h22, h23, h24]
        · rw [decide_eq_false h22, decide_eq_false h24]
          simp
  refine ⟨?_, hunion, ?_⟩
  · intro r hr hearly
    show r ∈ df.filter isEarlyYear ++ _
    exact List.mem_append_left _ (List.mem_filter.mpr ⟨hr, hearly⟩)
  · intro r _ hyear
    have hnot : r ∉ df.filter (fun r => decide (r.ts.year ≤ 2024)) := by
      intro hmem
      have := (List.mem_filter.mp hmem).2
      simp only [decide_eq_true_eq] at this
      omega
    refine ⟨?_, ?_, ?_⟩ <;> intro hmem <;> apply hnot <;>
      apply hunion.subset
    · exact List.mem_append_left _ hmem
    · exact List.mem_append_right _ (List.mem_append_left _ hmem)
    · exact List.mem_append_right _ (List.mem_append_right _ hmem)

/-- C10 witness: a concrete five-row frame with years 2021/2023/2024/2025,
shuffled by the reversal permutation. -/
theorem C10_witness :
    (∀ r ∈ ([⟨⟨2021, 0, 0⟩, 1, 5⟩, ⟨⟨2023, 0, 0⟩, 2, 7⟩, ⟨⟨2024, 0, 0⟩, 3, 9⟩,
        ⟨⟨2025, 0, 0⟩, 4, 11⟩, ⟨⟨2023, 1, 2⟩, 2, 8⟩] : List Obs), isEarlyYear r = true →
        r ∈ (split_data (fun n => (List.range n).reverse)
          [⟨⟨2021, 0, 0⟩, 1, 5⟩, ⟨⟨2023, 0, 0⟩, 2, 7⟩, ⟨⟨2024, 0, 0⟩, 3, 9⟩,
           ⟨⟨2025, 0, 0⟩, 4, 11⟩, ⟨⟨2023, 1, 2⟩, 2, 8⟩]).1) ∧
    List.Perm
      ((split_data (fun n => (List.range n).reverse)
          [⟨⟨2021, 0, 0⟩, 1, 5⟩, ⟨⟨2023, 0, 0⟩, 2, 7⟩, ⟨⟨2024, 0, 0⟩, 3, 9⟩,
           ⟨⟨2025, 0, 0⟩, 4, 11⟩, ⟨⟨2023, 1, 2⟩, 2, 8⟩]).1 ++
        (((split_data (fun n => (List.range n).reverse)
          [⟨⟨2021, 0, 0⟩, 1, 5⟩, ⟨⟨2023, 0, 0⟩, 2, 7⟩, ⟨⟨2024, 0, 0⟩, 3, 9⟩,
           ⟨⟨2025, 0, 0⟩, 4, 11⟩, ⟨⟨2023, 1, 2⟩, 2, 8⟩]).2.1) ++
        ((split_data (fun n => (List.range n).reverse)
          [⟨⟨2021, 0, 0⟩, 1, 5⟩, ⟨⟨2023, 0, 0⟩, 2, 7⟩, ⟨⟨2024, 0, 0⟩, 3, 9⟩,
           ⟨⟨2025, 0, 0⟩, 4, 11⟩, ⟨⟨2023, 1, 2⟩, 2, 8⟩]).2.2)))
      (([⟨⟨2021, 0, 0⟩, 1, 5⟩, ⟨⟨2023, 0, 0⟩, 2, 7⟩, ⟨⟨2024, 0, 0⟩, 3, 9⟩,
         ⟨⟨2025, 0, 0⟩, 4, 11⟩, ⟨⟨2023, 1, 2⟩, 2, 8⟩] : List Obs).filter
        (fun r => decide (r.ts.year ≤ 2024))) ∧
    (∀ r ∈ ([⟨⟨2021, 0, 0⟩, 1, 5⟩, ⟨⟨2023, 0, 0⟩, 2, 7⟩, ⟨⟨2024, 0, 0⟩, 3, 9⟩,
        ⟨⟨2025, 0, 0⟩, 4, 11⟩, ⟨⟨2023, 1, 2⟩, 2, 8⟩] : List Obs), 2025 ≤ r.ts.year →
        r ∉ (split_data (fun n => (List.range n).reverse)
          [⟨⟨2021, 0, 0⟩, 1, 5⟩, ⟨⟨2023, 0, 0⟩, 2, 7⟩, ⟨⟨2024, 0, 0⟩, 3, 9⟩,
           ⟨⟨2025, 0, 0⟩, 4, 11⟩, ⟨⟨2023, 1, 2⟩, 2, 8⟩]).1 ∧
        r ∉ (split_data (fun n => (List.range n).reverse)
          [⟨⟨2021, 0, 0⟩, 1, 5⟩, ⟨⟨2023, 0, 0⟩, 2, 7⟩, ⟨⟨2024, 0, 0⟩, 3, 9⟩,
           ⟨⟨2025, 0, 0⟩, 4, 11⟩, ⟨⟨2023, 1, 2⟩, 2, 8⟩]).2.1 ∧
        r ∉ (split_data (fun n => (List.range n).reverse)
          [⟨⟨2021, 0, 0⟩, 1, 5⟩, ⟨⟨2023, 0, 0⟩, 2, 7⟩, ⟨⟨2024, 0, 0⟩, 3, 9⟩,
           ⟨⟨2025, 0, 0⟩, 4, 11⟩, ⟨⟨2023, 1, 2⟩, 2, 8⟩]).2.2) :=
  C10_split_drops_future_rows (fun n => (List.range n).reverse)
    [⟨⟨2021, 0, 0⟩, 1, 5⟩, ⟨⟨2023, 0, 0⟩, 2, 7⟩, ⟨⟨2024, 0, 0⟩, 3, 9⟩,
     ⟨⟨2025, 0, 0⟩, 4, 11⟩, ⟨⟨2023, 1, 2⟩, 2, 8⟩]
    (by constructor
        · decide
        · constructor
          · decide
          · decide)

/-- Helper: a `filterMap` keeps exactly as many elements as the `filter` by
the predicate "the function succeeds". -/
theorem length_filterMap_eq_length_filter {α β : Type} (f : α → Option β)
    (p : α → Bool) (h : ∀ a, (f a).isSome = p a) (l : List α) :
    (l.filterMap f).length = (l.filter p).length := by
  induction l with
  | nil => rfl
  | cons a rest ih =>
    rw [List.filterMap_cons, List.filter_cons]
    cases hf : f a with
    | none =>
      have hp : p a = false := by rw [← h a, hf]; rfl
      rw [hp]
      simpa using ih
    | some b =>
      have hp : p a = true := by rw [← h a, hf]; rfl
      rw [hp]
      simpa using ih

/-- The columns `add_features` produces or uses (everything except the
carried-through timestamp): if a day-of-week sine/cosine pair were computed,
it would appear here. -/
def featCols (fr : FeatRow) : ℤ × ℤ × ℚ × ℚ × ℚ × ℕ × ℚ × ℚ × ℕ :=
  (fr.station, fr.ridership, fr.mean, fr.std, fr.ridership_norm,
    fr.hour, fr.sin_hour, fr.cos_hour, fr.node_id)

/-- C8 (amended): `add_features` encodes the *hour* as a sine/cosine pair
with period 24 and drops every row whose complex id is outside the node
mapping (keeping exactly the mapped rows) — but it computes no day-of-week
feature at all: its output columns are invariant under changing the
day-of-week of an input row while holding the hour fixed. -/
theorem C8_add_features_hour_only (sinF cosF : ℚ → ℚ)
    (stats : List (ℤ × ℚ × ℚ)) (mapping : List (ℤ × ℕ)) (df : List Obs)
    (ts ts' : Ts) (st rid : ℤ) (hhour : ts.hour = ts'.hour) :
    ((add_features sinF cosF stats mapping df).all
      (fun fr => decide (fr.sin_hour = sinF ((fr.hour : ℚ) / 24)) &&
        decide (fr.cos_hour = cosF ((fr.hour : ℚ) / 24)) &&
        (pyFind mapping fr.station).isSome) = true) ∧
    (add_features sinF cosF stats mapping df).length =
      (df.filter (fun r => (pyFind mapping r.station).isSome)).length ∧
    (add_features sinF cosF stats mapping [⟨ts, st, rid⟩]).map featCols =
      (add_features sinF cosF stats mapping [⟨ts', st, rid⟩]).map featCols := by
  refine ⟨?_, ?_, ?_⟩
  · rw [List.all_eq_true]
    intro fr hfr
    rcases List.mem_filterMap.mp hfr with ⟨r, _, hr⟩
    cases hmap : pyFind mapping r.station with
    | none => rw [hmap] at hr; exact absurd hr (by simp)
    | some nid =>
      rw [hmap] at hr
      simp only [Option.some_inj] at hr
      subst hr
      simp [hmap]
  · unfold add_features
    refine length_filterMap_eq_length_filter _ _ (fun a => ?_) df
    cases hm : pyFind mapping a.station <;> simp [hm]
  · unfold add_features
    rw [List.filterMap_cons, List.filterMap_cons]
    cases hmap : pyFind mapping st with
    | none => rfl
    | some nid =>
      simp only [List.filterMap_nil]
      rw [hhour]
      simp [featCols]

/-- C8 counterexample: two input rows identical except for the day of week
(`dow = 0` vs `dow = 3`) produce *identical* feature columns, so no
day-of-week sine/cosine pair (period 7) is present in `add_features`'s
output — had one been computed, the two outputs would differ (a period-7
sine separates `dow 0` from `dow 3`).  Only the hour is encoded. -/
theorem C8_counterexample :
    (add_features (fun q => q) (fun q => q + 1) [(1, (2, 3))] [(1, 0)]
        [⟨⟨2024, 10, 0⟩, 1, 5⟩]).map featCols =
      (add_features (fun q => q) (fun q => q + 1) [(1, (2, 3))] [(1, 0)]
        [⟨⟨2024, 10, 3⟩, 1, 5⟩]).map featCols ∧
    (⟨2024, 10, 0⟩ : Ts).dow ≠ (⟨2024, 10, 3⟩ : Ts).dow := by
  exact ⟨rfl, by decide⟩

/-- C8 witness: the amended theorem applied at a concrete frame and a
concrete pair of timestamps sharing the hour. -/
theorem C8_witness :
    ((add_features (fun q => q) (fun q => q + 1) [(1, (2, 3))] [(1, 0)]
        [⟨⟨2024, 10, 0⟩, 1, 5⟩, ⟨⟨2024, 11, 2⟩, 9, 4⟩]).all
      (fun fr => decide (fr.sin_hour = (fun q : ℚ => q) ((fr.hour : ℚ) / 24)) &&
        decide (fr.cos_hour = (fun q : ℚ => q + 1) ((fr.hour : ℚ) / 24)) &&
        (pyFind [((1 : ℤ), (0 : ℕ))] fr.station).isSome) = true) ∧
    (add_features (fun q => q) (fun q => q + 1) [(1, (2, 3))] [(1, 0)]
        [⟨⟨2024, 10, 0⟩, 1, 5⟩, ⟨⟨2024, 11, 2⟩, 9, 4⟩]).length =
      (([⟨⟨2024, 10, 0⟩, 1, 5⟩, ⟨⟨2024, 11, 2⟩, 9, 4⟩] : List Obs).filter
        (fun r => (pyFind [((1 : ℤ), (0 : ℕ))] r.station).isSome)).length ∧
    (add_features (fun q => q) (fun q => q + 1) [(1, (2, 3))] [(1, 0)]
        [⟨⟨2025, 6, 1⟩, 1, 7⟩]).map featCols =
      (add_features (fun q => q) (fun q => q + 1) [(1, (2, 3))] [(1, 0)]
        [⟨⟨2023, 6, 5⟩, 1, 7⟩]).map featCols :=
  C8_add_features_hour_only (fun q => q) (fun q => q + 1) [(1, (2, 3))]
    [(1, 0)] [⟨⟨2024, 10, 0⟩, 1, 5⟩, ⟨⟨2024, 11, 2⟩, 9, 4⟩]
    ⟨2025, 6, 1⟩ ⟨2023, 6, 5⟩ 1 7 rfl

/-! ### Dictionary lemmas for the predictor -/

theorem pyDictInsert_keys_iff {α β : Type} [DecidableEq α]
    (d : List (α × β)) (k : α) (v : β) (c : α) :
    c ∈ (pyDictInsert d k v).map Prod.fst ↔ c ∈ d.map Prod.fst ∨ c = k := by
  unfold pyDictInsert
  by_cases h : d.any (fun p => decide (p.1 = k)) = true
  · rw [if_pos h]
    have hkeys : (d.map (fun p => if p.1 = k then (k, v) else p)).map Prod.fst =
        d.map Prod.fst := by
      rw [List.map_map]
      refine List.map_congr_left (fun p _ => ?_)
      by_cases hp : p.1 = k
      · simp [hp]
      · simp [hp]
    rw [hkeys]
    constructor
    · exact fun hc => Or.inl hc
    · rintro (hc | rfl)
      · exact hc
      · rcases List.any_eq_true.mp h with ⟨p, hp, hpk⟩
        simp only [decide_eq_true_eq] at hpk
        exact List.mem_map.mpr ⟨p, hp, hpk⟩
  · rw [if_neg h]
    rw [List.map_append]
    simp [or_comm]

theorem pyDictInsert_mem {α β : Type} [DecidableEq α]
    {d : List (α × β)} {k : α} {v : β} {p : α × β}
    (hp : p ∈ pyDictInsert d k v) : p ∈ d ∨ p.2 = v := by
  unfold pyDictInsert at hp
  by_cases h : d.any (fun p => decide (p.1 = k)) = true
  · rw [if_pos h] at hp
    rcases List.mem_map.mp hp with ⟨q, hq, hqp⟩
    by_cases hqk : q.1 = k
    · rw [if_pos hqk] at hqp
      right
      rw [← hqp]
    · rw [if_neg hqk] at hqp
      exact Or.inl (hqp ▸ hq)
  · rw [if_neg h] at hp
    rcases List.mem_append.mp hp with hq | hq
    · exact Or.inl hq
    · right
      rw [List.mem_singleton.mp hq]

theorem pyDictOfList_eq_self {α β : Type} [DecidableEq α]
    (l : List (α × β)) (hnd : (l.map Prod.fst).Nodup) : pyDictOfList l = l := by
  suffices haux : ∀ (l acc : List (α × β)),
      (((acc ++ l).map Prod.fst).Nodup) →
      l.foldl (fun d p => pyDictInsert d p.1 p.2) acc = acc ++ l by
    simpa using haux l [] (by simpa using hnd)
  intro l
  induction l with
  | nil => intro acc _; simp
  | cons p rest ih =>
    intro acc hacc
    have hnotin : p.1 ∉ acc.map Prod.fst := by
      intro hmem
      rw [List.map_append] at hacc
      rcases (List.nodup_append.mp hacc) with ⟨_, _, hdisj⟩
      exact hdisj hmem (by simp)
    have hnone : ¬ ((acc.any fun q => decide (q.1 = p.1)) = true) := by
      intro hany
      rcases List.any_eq_true.mp hany with ⟨q, hq, hqk⟩
      simp only [decide_eq_true_eq] at hqk
      exact hnotin (List.mem_map.mpr ⟨q, hq, hqk⟩)
    have hinsert : pyDictInsert acc p.1 p.2 = acc ++ [p] := by
      unfold pyDictInsert
      rw [if_neg hnone]
    show List.foldl (fun d p => pyDictInsert d p.1 p.2) (pyDictInsert acc p.1 p.2) rest =
      acc ++ p :: rest
    rw [hinsert]
    rw [ih (acc ++ [p]) (by simpa using hacc)]
    simp

theorem pyFind_isSome_iff {α β : Type} [DecidableEq α]
    (d : List (α × β)) (k : α) :
    (pyFind d k).isSome = true ↔ k ∈ d.map Prod.fst := by
  unfold pyFind
  rw [Option.isSome_map']
  rw [List.find?_isSome]
  constructor
  · rintro ⟨p, hp, hpk⟩
    simp only [decide_eq_true_eq] at hpk
    exact List.mem_map.mpr ⟨p, hp, hpk⟩
  · intro hk
    rcases List.mem_map.mp hk with ⟨p, hp, hpk⟩
    exact ⟨p, hp, by simp [hpk]⟩

/-- Helper: a nodup list of naturals below its own length contains every
natural below its length (pigeonhole). -/
theorem mem_of_nodup_bounded (vs : List ℕ) (hnd : vs.Nodup)
    (hlt : ∀ x ∈ vs, x < vs.length) : ∀ m < vs.length, m ∈ vs := by
  have hperm : List.Perm vs (List.range vs.length) :=
    (List.subperm_of_subset hnd (fun x hx => List.mem_range.mpr (hlt x hx))).perm_of_length_le
      (by rw [List.length_range])
  intro m hm
  exact hperm.symm.subset (List.mem_range.mpr hm)

theorem pyDictInsert_of_not_mem {α β : Type} [DecidableEq α]
    {d : List (α × β)} {k : α} (v : β) (h : k ∉ d.map Prod.fst) :
    pyDictInsert d k v = d ++ [(k, v)] := by
  unfold pyDictInsert
  rw [if_neg ?_]
  intro hany
  rcases List.any_eq_true.mp hany with ⟨q, hq, hqk⟩
  simp only [decide_eq_true_eq] at hqk
  exact h (List.mem_map.mpr ⟨q, hq, hqk⟩)

theorem mem_unique_of_nodup_fst {α β : Type} {l : List (α × β)}
    (hnd : (l.map Prod.fst).Nodup) {k : α} {v v' : β}
    (h1 : (k, v) ∈ l) (h2 : (k, v') ∈ l) : v = v' := by
  induction l with
  | nil => simp at h1
  | cons p rest ih =>
    simp only [List.map_cons, List.nodup_cons] at hnd
    rcases List.mem_cons.mp h1 with he1 | ht1 <;>
      rcases List.mem_cons.mp h2 with he2 | ht2
    · rw [← he1] at he2; exact ((Prod.mk.injEq _ _ _ _).mp he2).2.symm
    · exact absurd (List.mem_map.mpr ⟨(k, v'), ht2, by rw [← he1]⟩) hnd.1
    · exact absurd (List.mem_map.mpr ⟨(k, v), ht1, by rw [← he2]⟩) hnd.1
    · exact ih hnd.2 ht1 ht2

/-- The denormalized, clamped output value `predict` stores for complex id
`c` at node `nid` (given raw model outputs `y`). -/
def predictVal (S : GNNState) (y : ℕ → ℚ) (c : ℤ) (nid : ℕ) : ℚ :=
  max 0 (match pyFind (gnnStatsDict S) c with
    | some ms => y nid * ms.2 + ms.1
    | none => y nid)

/-- One step of `predict`'s final loop. -/
def predictStep (S : GNNState) (y : ℕ → ℚ) (d : List (ℤ × ℚ)) (nid : ℕ) :
    List (ℤ × ℚ) :=
  match pyFind (nodeToCmplx S) nid with
  | none => d
  | some c => pyDictInsert d c (predictVal S y c nid)

/-- The entry `predict`'s final loop contributes for node id `nid`. -/
def predictEntry (S : GNNState) (y : ℕ → ℚ) (nid : ℕ) : Option (ℤ × ℚ) :=
  match pyFind (nodeToCmplx S) nid with
  | none => none
  | some c => some (c, predictVal S y c nid)

/-- The output of `predict`'s final loop, written as one pass over the node
ids instead of a dict fold (proved equal in `predict_eq_predictList`). -/
def predictList (S : GNNState) (y : ℕ → ℚ) : List (ℤ × ℚ) :=
  (List.range (numNodes S)).filterMap (predictEntry S y)

theorem foldl_predictStep_eq (S : GNNState) (y : ℕ → ℚ) :
    ∀ (ns : List ℕ) (d : List (ℤ × ℚ)),
      ((ns.filterMap (fun nid => pyFind (nodeToCmplx S) nid)).Nodup) →
      (∀ c ∈ ns.filterMap (fun nid => pyFind (nodeToCmplx S) nid),
        c ∉ d.map Prod.fst) →
      ns.foldl (predictStep S y) d = d ++ ns.filterMap (predictEntry S y) := by
  intro ns
  induction ns with
  | nil => intro d _ _; simp
  | cons nid rest ih =>
    intro d hnd' hdisj
    rw [List.filterMap_cons] at hnd' hdisj
    rw [List.filterMap_cons, List.foldl_cons]
    cases h : pyFind (nodeToCmplx S) nid with
    | none =>
      rw [h] at hnd' hdisj
      rw [show predictStep S y d nid = d by unfold predictStep; rw [h],
        show predictEntry S y nid = none by unfold predictEntry; rw [h]]
      exact ih d hnd' hdisj
    | some c =>
      rw [h] at hnd' hdisj
      have hcfresh : c ∉ d.map Prod.fst := hdisj c (by simp)
      have hcnotrest : c ∉ rest.filterMap (fun nid => pyFind (nodeToCmplx S) nid) :=
        (List.nodup_cons.mp hnd').1
      have hrestnd : (rest.filterMap (fun nid => pyFind (nodeToCmplx S) nid)).Nodup :=
        (List.nodup_cons.mp hnd').2
      rw [show predictStep S y d nid = pyDictInsert d c (predictVal S y c nid) by
            unfold predictStep; rw [h],
        show predictEntry S y nid = some (c, predictVal S y c nid) by
            unfold predictEntry; rw [h]]
      rw [pyDictInsert_of_not_mem _ hcfresh]
      rw [ih (d ++ [(c, predictVal S y c nid)]) hrestnd ?_]
      · rw [List.append_assoc]
        rfl
      · intro c' hc'
        rw [List.map_append]
        intro hmem
        rcases List.mem_append.mp hmem with hmem | hmem
        · exact hdisj c' (List.mem_cons_of_mem _ hc') hmem
        · simp only [List.map_cons, List.map_nil, List.mem_singleton] at hmem
          rw [hmem] at hc'
          exact hcnotrest hc'

/-- When the node ids map to pairwise distinct complex ids, `predict`'s
dict-building fold only ever appends fresh keys, so it equals the simple
pass `predictList`. -/
theorem predict_eq_predictList (S : GNNState) (sinF cosF : ℚ → ℚ)
    (snapshot : List (ℤ × ℚ)) (hour dow : ℕ)
    (hnd : ((List.range (numNodes S)).filterMap
        (fun nid => pyFind (nodeToCmplx S) nid)).Nodup) :
    predict S sinF cosF snapshot hour dow =
      predictList S (S.modelOut (buildX S sinF cosF snapshot hour dow)) := by
  have hpred : predict S sinF cosF snapshot hour dow =
      (List.range (numNodes S)).foldl
        (predictStep S (S.modelOut (buildX S sinF cosF snapshot hour dow))) [] := rfl
  rw [hpred,
    foldl_predictStep_eq S _ (List.range (numNodes S)) [] hnd (by simp)]
  rfl

theorem length_filterMap_of_all_some {α β : Type} (f : α → Option β)
    (l : List α) (h : ∀ a ∈ l, (f a).isSome = true) :
    (l.filterMap f).length = l.length := by
  induction l with
  | nil => rfl
  | cons a rest ih =>
    rw [List.filterMap_cons]
    cases hf : f a with
    | none => exact absurd (h a (by simp)) (by simp [hf])
    | some b =>
      simp only [List.length_cons]
      rw [ih (fun a ha => h a (List.mem_cons_of_mem _ ha))]

theorem wf_cmplxToNode (S : GNNState) (hwf : WFMapping S.rows) :
    cmplxToNode S = S.rows :=
  pyDictOfList_eq_self S.rows hwf.1

theorem wf_numNodes (S : GNNState) (hwf : WFMapping S.rows) :
    numNodes S = S.rows.length := by
  unfold numNodes
  rw [wf_cmplxToNode S hwf]

theorem wf_nodeToCmplx (S : GNNState) (hwf : WFMapping S.rows) :
    nodeToCmplx S = S.rows.map (fun p => (p.2, p.1)) := by
  unfold nodeToCmplx
  refine pyDictOfList_eq_self _ ?_
  rw [List.map_map]
  rw [show (Prod.fst ∘ fun p : ℤ × ℕ => (p.2, p.1)) = Prod.snd from rfl]
  exact hwf.2.1

theorem wf_mem_of_pyFind_nodeToCmplx (S : GNNState) (hwf : WFMapping S.rows)
    {nid : ℕ} {c : ℤ} (h : pyFind (nodeToCmplx S) nid = some c) :
    (c, nid) ∈ S.rows := by
  rw [wf_nodeToCmplx S hwf] at h
  have hmem := mem_of_pyFind_eq_some h
  rcases List.mem_map.mp hmem with ⟨p, hp, hpe⟩
  have h1 : p.2 = nid := ((Prod.mk.injEq _ _ _ _).mp hpe).1
  have h2 : p.1 = c := ((Prod.mk.injEq _ _ _ _).mp hpe).2
  have : p = (c, nid) := by
    cases p
    simp_all
  exact this ▸ hp

theorem wf_pyFind_nodeToCmplx_of_mem (S : GNNState) (hwf : WFMapping S.rows)
    {c : ℤ} {nid : ℕ} (h : (c, nid) ∈ S.rows) :
    pyFind (nodeToCmplx S) nid = some c := by
  rw [wf_nodeToCmplx S hwf]
  refine pyFind_eq_some_of_mem_nodup ?_ ?_
  · rw [List.map_map]
    rw [show (Prod.fst ∘ fun p : ℤ × ℕ => (p.2, p.1)) = Prod.snd from rfl]
    exact hwf.2.1
  · exact List.mem_map.mpr ⟨(c, nid), h, rfl⟩

theorem wf_images_nodup (S : GNNState) (hwf : WFMapping S.rows) :
    ((List.range (numNodes S)).filterMap
      (fun nid => pyFind (nodeToCmplx S) nid)).Nodup := by
  refine List.Nodup.filterMap ?_ (List.nodup_range _)
  intro a a' c hc hc'
  have h1 : (c, a) ∈ S.rows :=
    wf_mem_of_pyFind_nodeToCmplx S hwf (Option.mem_def.mp hc)
  have h2 : (c, a') ∈ S.rows :=
    wf_mem_of_pyFind_nodeToCmplx S hwf (Option.mem_def.mp hc')
  exact mem_unique_of_nodup_fst hwf.1 h1 h2

theorem wf_pyFind_nodeToCmplx_isSome (S : GNNState) (hwf : WFMapping S.rows)
    {nid : ℕ} (h : nid < numNodes S) :
    (pyFind (nodeToCmplx S) nid).isSome = true := by
  have hlen : nid < (S.rows.map Prod.snd).length := by
    rw [List.length_map, ← wf_numNodes S hwf]
    exact h
  have hmem : nid ∈ S.rows.map Prod.snd := by
    refine mem_of_nodup_bounded _ hwf.2.1 (fun x hx => ?_) nid hlen
    rw [List.length_map]
    exact hwf.2.2 x hx
  rcases List.mem_map.mp hmem with ⟨p, hp, hpe⟩
  have : (p.1, nid) ∈ S.rows := by
    rw [← hpe]
    exact hp
  rw [wf_pyFind_nodeToCmplx_of_mem S hwf this]
  rfl

/-- Under a well-formed mapping, `predict`'s output has one entry per known
station. -/
theorem predict_length (S : GNNState) (sinF cosF : ℚ → ℚ)
    (snapshot : List (ℤ × ℚ)) (hour dow : ℕ) (hwf : WFMapping S.rows) :
    (predict S sinF cosF snapshot hour dow).length = S.rows.length := by
  rw [predict_eq_predictList S sinF cosF snapshot hour dow (wf_images_nodup S hwf)]
  unfold predictList
  rw [length_filterMap_of_all_some _ _ (fun nid hnid => ?_), List.length_range,
    wf_numNodes S hwf]
  unfold predictEntry
  cases h : pyFind (nodeToCmplx S) nid with
  | none =>
    have := wf_pyFind_nodeToCmplx_isSome S hwf (List.mem_range.mp hnid)
    rw [h] at this
    exact absurd this (by simp)
  | some c => rfl

/-- C2 (confirmed): given a well-formed loaded node mapping (distinct
complex ids mapped bijectively onto `[0, num_nodes)`, as `ComplexNodes.csv`
is built), `predict` returns, for every snapshot and timestamp, a mapping
whose keys are exactly the known complex ids (each exactly once) and whose
values are all non-negative (every stored value is `max(0, ·)`). -/
theorem C2_predict_output_contract (S : GNNState) (sinF cosF : ℚ → ℚ)
    (snapshot : List (ℤ × ℚ)) (hour dow : ℕ) (hwf : WFMapping S.rows) :
    (∀ c : ℤ, c ∈ (predict S sinF cosF snapshot hour dow).map Prod.fst ↔
      c ∈ S.rows.map Prod.fst) ∧
    (∀ p ∈ predict S sinF cosF snapshot hour dow, 0 ≤ p.2) ∧
    (predict S sinF cosF snapshot hour dow).length = S.rows.length := by
  rw [predict_eq_predictList S sinF cosF snapshot hour dow (wf_images_nodup S hwf)]
  refine ⟨?_, ?_, ?_⟩
  · intro c
    constructor
    · intro hc
      rcases List.mem_map.mp hc with ⟨p, hp, hpc⟩
      rcases List.mem_filterMap.mp hp with ⟨nid, _, hentry⟩
      unfold predictEntry at hentry
      cases h : pyFind (nodeToCmplx S) nid with
      | none => rw [h] at hentry; exact absurd hentry (by simp)
      | some c' =>
        rw [h] at hentry
        simp only [Option.some_inj] at hentry
        have hrow : (c', nid) ∈ S.rows := wf_mem_of_pyFind_nodeToCmplx S hwf h
        have : p.1 = c' := by rw [← hentry]
        exact List.mem_map.mpr ⟨(c', nid), hrow, by rw [← hpc, this]⟩
    · intro hc
      rcases List.mem_map.mp hc with ⟨p, hp, hpc⟩
      have hple : p.2 < numNodes S := by
        rw [wf_numNodes S hwf]
        exact hwf.2.2 p.2 (List.mem_map.mpr ⟨p, hp, rfl⟩)
      have hfind : pyFind (nodeToCmplx S) p.2 = some p.1 := by
        refine wf_pyFind_nodeToCmplx_of_mem S hwf ?_
        have : (p.1, p.2) = p := rfl
        rw [this]
        exact hp
      refine List.mem_map.mpr
        ⟨(p.1, predictVal S (S.modelOut (buildX S sinF cosF snapshot hour dow))
            p.1 p.2), ?_, hpc⟩
      refine List.mem_filterMap.mpr ⟨p.2, List.mem_range.mpr hple, ?_⟩
      unfold predictEntry
      rw [hfind]
  · intro p hp
    rcases List.mem_filterMap.mp hp with ⟨nid, _, hentry⟩
    unfold predictEntry at hentry
    cases h : pyFind (nodeToCmplx S) nid with
    | none => rw [h] at hentry; exact absurd hentry (by simp)
    | some c =>
      rw [h] at hentry
      simp only [Option.some_inj] at hentry
      rw [← hentry]
      exact le_max_left 0 _
  · rw [← predict_eq_predictList S sinF cosF snapshot hour dow
      (wf_images_nodup S hwf)]
    exact predict_length S sinF cosF snapshot hour dow hwf

/-- C2 witness: the output contract applied to a small concrete predictor
state (two stations, one with stats), a model emitting a negative raw
output, and a one-row snapshot. -/
theorem C2_witness :
    (∀ c : ℤ, c ∈ (predict ⟨[(10, 0), (20, 1)], [(10, (3, 2))],
        fun X n => X n 0 - 5⟩ (fun q => q) (fun q => q + 1)
        [(10, 7)] 6 2).map Prod.fst ↔
      c ∈ ([((10 : ℤ), (0 : ℕ)), (20, 1)]).map Prod.fst) ∧
    (∀ p ∈ predict ⟨[(10, 0), (20, 1)], [(10, (3, 2))],
        fun X n => X n 0 - 5⟩ (fun q => q) (fun q => q + 1) [(10, 7)] 6 2,
      0 ≤ p.2) ∧
    (predict ⟨[(10, 0), (20, 1)], [(10, (3, 2))],
        fun X n => X n 0 - 5⟩ (fun q => q) (fun q => q + 1)
      [(10, 7)] 6 2).length = ([((10 : ℤ), (0 : ℕ)), (20, 1)]).length :=
  C2_predict_output_contract
    ⟨[(10, 0), (20, 1)], [(10, (3, 2))], fun X n => X n 0 - 5⟩
    (fun q => q) (fun q => q + 1) [(10, 7)] 6 2 (by decide)

/-- C7 (amended): on an empty ridership snapshot `predict` does not error
and returns a non-empty mapping with one entry per known station — but it
does *not* use the time-of-day/day-of-week signal: the feature matrix stays
entirely zero (the time columns are written only inside the loop over
snapshot rows), so the output is identical for any two timestamps.
"Unobserved" thus means an all-zero feature vector, not merely a zero
ridership feature. -/
theorem C7_empty_snapshot (S : GNNState) (sinF cosF : ℚ → ℚ)
    (hour dow hour' dow' : ℕ) (hwf : WFMapping S.rows) (hne : S.rows ≠ []) :
    (predict S sinF cosF [] hour dow).length = S.rows.length ∧
    predict S sinF cosF [] hour dow ≠ [] ∧
    buildX S sinF cosF [] hour dow = (fun _ _ => 0) ∧
    predict S sinF cosF [] hour dow = predict S sinF cosF [] hour' dow' := by
  have hlen := predict_length S sinF cosF [] hour dow hwf
  refine ⟨hlen, ?_, rfl, rfl⟩
  intro hempty
  rw [hempty] at hlen
  exact hne (List.eq_nil_of_length_eq_zero hlen.symm)

/-- C7 counterexample: with one known station, `sinF = id` and hour 6 (so
the sin-hour feature demanded by the claim is `6/24 ≠ 0`; for the real
encoding, `sin (2π·6/24) = 1 ≠ 0` likewise), the feature matrix built for
the empty snapshot still holds `0` in the sin-hour column, and the
prediction output is *identical* at a completely different timestamp
(hour 9, weekday 5) — the claim's "sin/cos features are still set from the
given timestamp" is false. -/
theorem C7_counterexample :
    buildX ⟨[(10, 0)], [], fun X n => X n 1 + X n 3⟩ (fun q => q) (fun q => q)
        [] 6 2 0 1 = 0 ∧
    ((6 : ℚ) / 24 ≠ 0) ∧
    predict ⟨[(10, 0)], [], fun X n => X n 1 + X n 3⟩ (fun q => q) (fun q => q)
        [] 6 2 =
      predict ⟨[(10, 0)], [], fun X n => X n 1 + X n 3⟩ (fun q => q) (fun q => q)
        [] 9 5 := by
  exact ⟨rfl, by norm_num, rfl⟩

/-- C7 witness: the amended theorem at the concrete one-station state. -/
theorem C7_witness :
    (predict ⟨[(10, 0)], [(10, (3, 2))], fun X n => X n 0 + 1⟩
        (fun q => q) (fun q => q) [] 6 2).length =
      ([((10 : ℤ), (0 : ℕ))]).length ∧
    predict ⟨[(10, 0)], [(10, (3, 2))], fun X n => X n 0 + 1⟩
        (fun q => q) (fun q => q) [] 6 2 ≠ [] ∧
    buildX ⟨[(10, 0)], [(10, (3, 2))], fun X n => X n 0 + 1⟩
        (fun q => q) (fun q => q) [] 6 2 = (fun _ _ => 0) ∧
    predict ⟨[(10, 0)], [(10, (3, 2))], fun X n => X n 0 + 1⟩
        (fun q => q) (fun q => q) [] 6 2 =
      predict ⟨[(10, 0)], [(10, (3, 2))], fun X n => X n 0 + 1⟩
        (fun q => q) (fun q => q) [] 23 6 :=
  C7_empty_snapshot ⟨[(10, 0)], [(10, (3, 2))], fun X n => X n 0 + 1⟩
    (fun q => q) (fun q => q) 6 2 23 6 (by decide) (by decide)

/-! ### Lemmas for the leakage invariant (C1) -/

theorem filter_set_of_false {α : Type} (p : α → Bool) (l : List α) (i : ℕ)
    (a r : α) (hr : l.get? i = some r) (hold : p r = false)
    (hnew : p a = false) : (l.set i a).filter p = l.filter p := by
  induction l generalizing i with
  | nil => simp at hr
  | cons x xs ih =>
    cases i with
    | zero =>
      have hx : x = r := by
        simp only [List.get?_cons_zero, Option.some_inj] at hr
        exact hr
      subst hx
      rw [List.set_cons_zero, List.filter_cons, List.filter_cons, hold, hnew]
      rfl
    | succ i' =>
      have hr' : xs.get? i' = some r := hr
      rw [List.set_cons_succ, List.filter_cons, List.filter_cons]
      cases hx : p x <;> simp [ih i' hr']

theorem filter_set_of_true {α : Type} (p : α → Bool) (l : List α) (i : ℕ)
    (a r : α) (hr : l.get? i = some r) (hpr : p r = true) (hpa : p a = true) :
    (l.set i a).filter p = (l.filter p).set ((l.take i).countP p) a := by
  induction l generalizing i with
  | nil => simp at hr
  | cons x xs ih =>
    cases i with
    | zero =>
      have hx : x = r := by
        simp only [List.get?_cons_zero, Option.some_inj] at hr
        exact hr
      subst hx
      rw [List.set_cons_zero, List.filter_cons, List.filter_cons, hpr, hpa]
      simp
    | succ i' =>
      have hr' : xs.get? i' = some r := hr
      rw [List.set_cons_succ, List.filter_cons, List.filter_cons,
        List.take_succ_cons, List.countP_cons]
      cases hx : p x with
      | true =>
        rw [ih i' hr']
        rfl
      | false =>
        rw [ih i' hr']
        rfl

theorem countP_take_lt {α : Type} (p : α → Bool) (l : List α) (i : ℕ) (r : α)
    (hr : l.get? i = some r) (hpr : p r = true) :
    (l.take i).countP p < (l.filter p).length := by
  have hi : i < l.length := by
    by_contra hcon
    push_neg at hcon
    rw [List.get?_eq_getElem?, List.getElem?_eq_none hcon] at hr
    exact absurd hr (by simp)
  have hget : l[i] = r := by
    rw [List.get?_eq_getElem?] at hr
    exact (List.getElem?_eq_some.mp hr).choose_spec ▸ rfl
  have hdrop : l.drop i = r :: l.drop (i + 1) := by
    rw [List.drop_eq_getElem_cons hi, hget]
  have hsplit : l.countP p = (l.take i).countP p + (l.drop i).countP p := by
    conv_lhs => rw [← List.take_append_drop i l]
    rw [List.countP_append]
  rw [← List.countP_eq_length_filter]
  rw [hsplit, hdrop]
  have hcc : List.countP p (r :: List.drop (i + 1) l) =
      List.countP p (List.drop (i + 1) l) + 1 := by
    simp [List.countP_cons, hpr]
  rw [hcc]
  omega

theorem filterMap_get?_eq_map_getD {α : Type} (l : List α) (ns : List ℕ)
    (d : α) (h : ∀ k ∈ ns, k < l.length) :
    ns.filterMap (fun k => l.get? k) = ns.map (fun k => l.getD k d) := by
  induction ns with
  | nil => rfl
  | cons k ks ih =>
    rw [List.filterMap_cons, List.map_cons]
    have hk : k < l.length := h k (by simp)
    have hsome : l.get? k = some (l.getD k d) := by
      rw [List.getD_eq_get?]
      cases hg : l.get? k with
      | none =>
        rw [List.get?_eq_none] at hg
        omega
      | some x => rfl
    rw [hsome, ih (fun k hk => h k (List.mem_cons_of_mem _ hk))]

/-- C1 (confirmed): the leakage invariant.  Take any cleaned dataset, and
any record that `split_data` assigns to the validation or test partition: it
is a late-year (2023–2024) record whose position `j` among the late rows is
not among the first `n_train` positions of the seed-42 shuffle (the shuffle
permutes positions as a function of the row *count* only, never of row
values).  Perturbing that record's ridership value leaves the training
partition — and hence `compute_stats` and `build_node_mapping` — exactly
unchanged, while the perturbed record itself lands in validation or test. -/
theorem C1_no_validation_leakage (σ : ℕ → List ℕ) (df : List Obs) (i : ℕ)
    (r : Obs) (v : ℤ)
    (hr : df.get? i = some r)
    (hlate : isLateYear r = true)
    (hσ : IsShuffleSpec σ (df.filter isLateYear).length)
    (hassign : (df.take i).countP isLateYear ∉
      (σ (df.filter isLateYear).length).take
        (3 * (df.filter isLateYear).length / 8)) :
    (split_data σ (df.set i ⟨r.ts, r.station, v⟩)).1 = (split_data σ df).1 ∧
    compute_stats (split_data σ (df.set i ⟨r.ts, r.station, v⟩)).1 =
      compute_stats (split_data σ df).1 ∧
    build_node_mapping (split_data σ (df.set i ⟨r.ts, r.station, v⟩)).1 =
      build_node_mapping (split_data σ df).1 ∧
    ((⟨r.ts, r.station, v⟩ : Obs) ∈ (split_data σ (df.set i ⟨r.ts, r.station, v⟩)).2.1 ∨
      (⟨r.ts, r.station, v⟩ : Obs) ∈ (split_data σ (df.set i ⟨r.ts, r.station, v⟩)).2.2) := by
  obtain ⟨hσlen, hσnd, hσlt⟩ := hσ
  have hlate' : isLateYear (⟨r.ts, r.station, v⟩ : Obs) = true := hlate
  have hearly : isEarlyYear r = false := by
    unfold isLateYear at hlate
    simp only [Bool.and_eq_true, decide_eq_true_eq] at hlate
    exact decide_eq_false (by omega)
  have hlateb : isLateYear r = true := hlate'
  have hearly' : isEarlyYear (⟨r.ts, r.station, v⟩ : Obs) = false := hearly
  have hEarlyEq : (df.set i ⟨r.ts, r.station, v⟩).filter isEarlyYear =
      df.filter isEarlyYear :=
    filter_set_of_false _ _ _ _ _ hr hearly hearly'
  have hLateEq : (df.set i ⟨r.ts, r.station, v⟩).filter isLateYear =
      (df.filter isLateYear).set ((df.take i).countP isLateYear)
        ⟨r.ts, r.station, v⟩ :=
    filter_set_of_true _ _ _ _ _ hr hlateb hlate'
  have hjlt : (df.take i).countP isLateYear < (df.filter isLateYear).length :=
    countP_take_lt _ _ _ _ hr hlateb
  have hvalid : ∀ k ∈ σ (df.filter isLateYear).length,
      k < (df.filter isLateYear).length := hσlt
  have hshuf : sampleShuffle σ (df.filter isLateYear) =
      (σ (df.filter isLateYear).length).map
        (fun k => (df.filter isLateYear).getD k r) :=
    filterMap_get?_eq_map_getD _ _ r hvalid
  have hshuf' : sampleShuffle σ ((df.filter isLateYear).set
        ((df.take i).countP isLateYear) ⟨r.ts, r.station, v⟩) =
      (σ (df.filter isLateYear).length).map
        (fun k => ((df.filter isLateYear).set ((df.take i).countP isLateYear)
          ⟨r.ts, r.station, v⟩).getD k r) := by
    unfold sampleShuffle
    rw [List.length_set]
    exact filterMap_get?_eq_map_getD _ _ r
      (fun k hk => by rw [List.length_set]; exact hσlt k hk)
  have hTrainTake :
      ((σ (df.filter isLateYear).length).map
        (fun k => ((df.filter isLateYear).set ((df.take i).countP isLateYear)
          ⟨r.ts, r.station, v⟩).getD k r)).take
          (3 * (df.filter isLateYear).length / 8) =
      ((σ (df.filter isLateYear).length).map
        (fun k => (df.filter isLateYear).getD k r)).take
          (3 * (df.filter isLateYear).length / 8) := by
    rw [← List.map_take, ← List.map_take]
    refine List.map_congr_left (fun k hk => ?_)
    have hkj : (df.take i).countP isLateYear ≠ k := by
      intro he
      exact hassign (he ▸ hk)
    rw [List.getD_eq_get?, List.getD_eq_get?, List.get?_set_ne _ _ hkj]
  have hTrain : (split_data σ (df.set i ⟨r.ts, r.station, v⟩)).1 =
      (split_data σ df).1 := by
    simp only [split_data]
    rw [hEarlyEq, hLateEq, List.length_set, hshuf, hshuf', hTrainTake]
  refine ⟨hTrain, congrArg compute_stats hTrain,
    congrArg build_node_mapping hTrain, ?_⟩
  have hjmem : (df.take i).countP isLateYear ∈
      σ (df.filter isLateYear).length := by
    refine mem_of_nodup_bounded _ hσnd (fun x hx => ?_) _ ?_
    · rw [hσlen]; exact hσlt x hx
    · rw [hσlen]; exact hjlt
  have hjsplit : (df.take i).countP isLateYear ∈
      (σ (df.filter isLateYear).length).take
        (3 * (df.filter isLateYear).length / 8) ++
      (σ (df.filter isLateYear).length).drop
        (3 * (df.filter isLateYear).length / 8) := by
    rw [List.take_append_drop]
    exact hjmem
  have hjdrop : (df.take i).countP isLateYear ∈
      (σ (df.filter isLateYear).length).drop
        (3 * (df.filter isLateYear).length / 8) := by
    rcases List.mem_append.mp hjsplit with h | h
    · exact absurd h hassign
    · exact h
  have hgetr' : ((df.filter isLateYear).set ((df.take i).countP isLateYear)
      ⟨r.ts, r.station, v⟩).getD ((df.take i).countP isLateYear) r =
      (⟨r.ts, r.station, v⟩ : Obs) := by
    rw [List.getD_eq_get?, List.get?_set_eq]
    cases hg : (df.filter isLateYear).get? ((df.take i).countP isLateYear) with
    | none =>
      rw [List.get?_eq_none] at hg
      omega
    | some x => rfl
  have hmemdrop : (⟨r.ts, r.station, v⟩ : Obs) ∈
      ((sampleShuffle σ ((df.filter isLateYear).set
        ((df.take i).countP isLateYear) ⟨r.ts, r.station, v⟩)).drop
          (3 * (df.filter isLateYear).length / 8)) := by
    rw [hshuf', ← List.map_drop]
    refine List.mem_map.mpr ⟨(df.take i).countP isLateYear, hjdrop, hgetr'⟩
  have hvt : (split_data σ (df.set i ⟨r.ts, r.station, v⟩)).2.1 ++
      (split_data σ (df.set i ⟨r.ts, r.station, v⟩)).2.2 =
      (sampleShuffle σ ((df.filter isLateYear).set
        ((df.take i).countP isLateYear) ⟨r.ts, r.station, v⟩)).drop
          (3 * (df.filter isLateYear).length / 8) := by
    simp only [split_data]
    rw [hLateEq, List.length_set]
    rw [← List.drop_drop, List.take_append_drop]
  rcases List.mem_append.mp (hvt ▸ hmemdrop) with h | h
  · exact Or.inl h
  · exact Or.inr h

/-- C1 witness: a five-row frame (years 2021/2023/2024/2025/2023) under the
reversal shuffle; the 2023 record at index 1 is assigned to the test slice,
and perturbing its ridership from 7 to 100 leaves the training partition,
the statistics and the node mapping unchanged. -/
theorem C1_witness :
    (split_data (fun n => (List.range n).reverse)
        (([⟨⟨2021, 0, 0⟩, 7, 5⟩, ⟨⟨2023, 0, 0⟩, 8, 7⟩, ⟨⟨2024, 0, 0⟩, 9, 9⟩,
          ⟨⟨2025, 0, 0⟩, 10, 11⟩, ⟨⟨2023, 1, 2⟩, 8, 8⟩] : List Obs).set 1
          ⟨(⟨⟨2023, 0, 0⟩, 8, 7⟩ : Obs).ts, (⟨⟨2023, 0, 0⟩, 8, 7⟩ : Obs).station, 100⟩)).1 =
      (split_data (fun n => (List.range n).reverse)
        [⟨⟨2021, 0, 0⟩, 7, 5⟩, ⟨⟨2023, 0, 0⟩, 8, 7⟩, ⟨⟨2024, 0, 0⟩, 9, 9⟩,
         ⟨⟨2025, 0, 0⟩, 10, 11⟩, ⟨⟨2023, 1, 2⟩, 8, 8⟩]).1 ∧
    compute_stats (split_data (fun n => (List.range n).reverse)
        (([⟨⟨2021, 0, 0⟩, 7, 5⟩, ⟨⟨2023, 0, 0⟩, 8, 7⟩, ⟨⟨2024, 0, 0⟩, 9, 9⟩,
          ⟨⟨2025, 0, 0⟩, 10, 11⟩, ⟨⟨2023, 1, 2⟩, 8, 8⟩] : List Obs).set 1
          ⟨(⟨⟨2023, 0, 0⟩, 8, 7⟩ : Obs).ts, (⟨⟨2023, 0, 0⟩, 8, 7⟩ : Obs).station, 100⟩)).1 =
      compute_stats (split_data (fun n => (List.range n).reverse)
        [⟨⟨2021, 0, 0⟩, 7, 5⟩, ⟨⟨2023, 0, 0⟩, 8, 7⟩, ⟨⟨2024, 0, 0⟩, 9, 9⟩,
         ⟨⟨2025, 0, 0⟩, 10, 11⟩, ⟨⟨2023, 1, 2⟩, 8, 8⟩]).1 ∧
    build_node_mapping (split_data (fun n => (List.range n).reverse)
        (([⟨⟨2021, 0, 0⟩, 7, 5⟩, ⟨⟨2023, 0, 0⟩, 8, 7⟩, ⟨⟨2024, 0, 0⟩, 9, 9⟩,
          ⟨⟨2025, 0, 0⟩, 10, 11⟩, ⟨⟨2023, 1, 2⟩, 8, 8⟩] : List Obs).set 1
          ⟨(⟨⟨2023, 0, 0⟩, 8, 7⟩ : Obs).ts, (⟨⟨2023, 0, 0⟩, 8, 7⟩ : Obs).station, 100⟩)).1 =
      build_node_mapping (split_data (fun n => (List.range n).reverse)
        [⟨⟨2021, 0, 0⟩, 7, 5⟩, ⟨⟨2023, 0, 0⟩, 8, 7⟩, ⟨⟨2024, 0, 0⟩, 9, 9⟩,
         ⟨⟨2025, 0, 0⟩, 10, 11⟩, ⟨⟨2023, 1, 2⟩, 8, 8⟩]).1 ∧
    ((⟨(⟨⟨2023, 0, 0⟩, 8, 7⟩ : Obs).ts, (⟨⟨2023, 0, 0⟩, 8, 7⟩ : Obs).station, 100⟩ : Obs) ∈
        (split_data (fun n => (List.range n).reverse)
          (([⟨⟨2021, 0, 0⟩, 7, 5⟩, ⟨⟨2023, 0, 0⟩, 8, 7⟩, ⟨⟨2024, 0, 0⟩, 9, 9⟩,
            ⟨⟨2025, 0, 0⟩, 10, 11⟩, ⟨⟨2023, 1, 2⟩, 8, 8⟩] : List Obs).set 1
            ⟨(⟨⟨2023, 0, 0⟩, 8, 7⟩ : Obs).ts, (⟨⟨2023, 0, 0⟩, 8, 7⟩ : Obs).station, 100⟩)).2.1 ∨
      (⟨(⟨⟨2023, 0, 0⟩, 8, 7⟩ : Obs).ts, (⟨⟨2023, 0, 0⟩, 8, 7⟩ : Obs).station, 100⟩ : Obs) ∈
        (split_data (fun n => (List.range n).reverse)
          (([⟨⟨2021, 0, 0⟩, 7, 5⟩, ⟨⟨2023, 0, 0⟩, 8, 7⟩, ⟨⟨2024, 0, 0⟩, 9, 9⟩,
            ⟨⟨2025, 0, 0⟩, 10, 11⟩, ⟨⟨2023, 1, 2⟩, 8, 8⟩] : List Obs).set 1
            ⟨(⟨⟨2023, 0, 0⟩, 8, 7⟩ : Obs).ts, (⟨⟨2023, 0, 0⟩, 8, 7⟩ : Obs).station, 100⟩)).2.2) :=
  C1_no_validation_leakage (fun n => (List.range n).reverse)
    [⟨⟨2021, 0, 0⟩, 7, 5⟩, ⟨⟨2023, 0, 0⟩, 8, 7⟩, ⟨⟨2024, 0, 0⟩, 9, 9⟩,
     ⟨⟨2025, 0, 0⟩, 10, 11⟩, ⟨⟨2023, 1, 2⟩, 8, 8⟩]
    1 ⟨⟨2023, 0, 0⟩, 8, 7⟩ 100
    (by decide) (by decide) (by decide) (by decide)

end Hush
